import Mathlib

/-!
Verification of the batched relationship data-access layer of
strawberry-sqlalchemy (src/strawberry_sqlalchemy_mapper/).

The embedding is a shallow one:

* `pagination_cursor_utils.py` (`decode_cursor_index`, `encode_cursor_index`)
  is translated over cursors represented as `List Char`.  The external helper
  pair `strawberry.relay.to_base64` / `from_base64` (a third-party library,
  not part of this repository) is modelled from the spec as the
  "tag + delimited value" layer with the base64 bijection elided: `to_base64`
  joins tag and value with a colon, `from_base64` splits at the first colon
  and fails (returns `none`, the model of the caught `ValueError`) when no
  colon is present.
* `loader.py` is translated with the database modelled as the ordered list of
  related-model rows the backend would return (the `ORDER BY` of the
  relationship is reflected in the order of that list); executing a query is
  filtering that list by the key tuple, then applying offset/limit exactly as
  `load_fn` does.  Backend executions are recorded in an explicit trace so
  that "no backend call happens" is a provable statement.
-/

deriving instance DecidableEq for Except

namespace StrawberrySqlalchemy

/-- Scalar column values. -/
abbrev Val := Int

/-- A key is the ordered tuple of scalar values of the remote (or local)
columns of a relationship; composite keys are longer tuples. -/
abbrev Key := List Val

/-- Opaque cursor strings, represented as their character list. -/
abbrev Cursor := List Char

/-! ## Cursor codec (`pagination_cursor_utils.py`) -/

/-- `str.split(":", 1)` restricted to the shape `from_base64` checks for:
the result is the text before the first colon and the text after it, and
`none` when the string has no colon (Python then raises `ValueError`, which
`decode_cursor_index` catches). -/
def splitColon : List Char → Option (List Char × List Char)
  | [] => none
  | c :: rest =>
    if c = ':' then some ([], rest)
    else
      match splitColon rest with
      | none => none
      | some p => some (c :: p.1, p.2)

/-- Modelled from the spec: `strawberry.relay.from_base64` (external library,
not part of this repository).  Per spec §4.1 the codec is a pure, injective,
reversible "tag + base64 of a delimited value list"; the base64 bijection is
elided, leaving the delimited layer: split the string at the first colon,
failing on malformed input instead of raising. -/
def from_base64 (s : Cursor) : Option (List Char × List Char) :=
  splitColon s

/-- Modelled from the spec: `strawberry.relay.to_base64` (external library,
not part of this repository), the encoding half of `from_base64`: join the
tag and the printed value with a colon (base64 bijection elided). -/
def to_base64 (tag value : List Char) : Cursor :=
  tag ++ ':' :: value

/-- The decimal value of one character, `none` if it is not an ASCII digit. -/
def pyDigit (c : Char) : Option Nat :=
  if '0' ≤ c ∧ c ≤ '9' then some (c.toNat - 48) else none

/-- Accumulating decimal parse of a digit string; `none` as soon as a
non-digit character appears. -/
def parseDigitsAux : List Char → Nat → Option Nat
  | [], acc => some acc
  | c :: rest, acc =>
    match pyDigit c with
    | some d => parseDigitsAux rest (10 * acc + d)
    | none => none

/-- Models the Python builtin `int()` applied to a decimal string: an
optional sign followed by at least one digit; any other input raises
`ValueError`, modelled as `none`.  (Surrounding whitespace and digit-group
underscores, which CPython also accepts, are not modelled; no cursor this
code produces contains them.) -/
def pyInt (s : List Char) : Option Int :=
  match s with
  | [] => none
  | c :: rest =>
    if c = '-' then
      (parseDigitsAux rest 0).map (fun n => -(n : Int))
    else if c = '+' then
      (parseDigitsAux rest 0).map (fun n => (n : Int))
    else
      (parseDigitsAux (c :: rest) 0).map (fun n => (n : Int))

/-- The cursor tag used by `encode_cursor_index` / `decode_cursor_index`. -/
def arrayconnection : List Char := "arrayconnection".data

/-- `decode_cursor_index` from `pagination_cursor_utils.py`: decode the
cursor, check the tag, and parse the index; every failure (no delimiter,
wrong tag, unparsable integer) is caught and returns `none`. -/
def decode_cursor_index (cursor : Cursor) : Option Int :=
  match from_base64 cursor with
  | none => none
  | some (start, str_index) =>
    if start = arrayconnection then pyInt str_index else none

/-- Decimal printing of a natural number, fuel-indexed so that it reduces
structurally; `natChars` supplies sufficient fuel. -/
def natCharsAux : Nat → Nat → List Char
  | 0, _ => []
  | fuel + 1, n =>
    if n < 10 then [Nat.digitChar n]
    else natCharsAux fuel (n / 10) ++ [Nat.digitChar (n % 10)]

/-- Decimal printing of a natural number (the digits of Python `str(n)`). -/
def natChars (n : Nat) : List Char :=
  natCharsAux (n + 1) n

/-- Python `str()` of an int: an optional minus sign and the decimal digits. -/
def intChars (i : Int) : List Char :=
  if i < 0 then '-' :: natChars i.natAbs else natChars i.toNat

/-- `encode_cursor_index` from `pagination_cursor_utils.py`. -/
def encode_cursor_index (cursor_index : Int) : Cursor :=
  to_base64 arrayconnection (intChars cursor_index)

/-! ### Codec lemmas -/

theorem splitColon_append (tag v : List Char) (htag : ':' ∉ tag) :
    splitColon (tag ++ ':' :: v) = some (tag, v) := by
  induction tag with
  | nil => simp [splitColon]
  | cons c rest ih =>
    have hc : c ≠ ':' := by
      intro h
      exact htag (h ▸ List.mem_cons_self c rest)
    have hrest : ':' ∉ rest := fun h => htag (List.mem_cons_of_mem c h)
    simp [splitColon, hc, ih hrest]

theorem parseDigitsAux_append (s t : List Char) :
    ∀ acc, parseDigitsAux (s ++ t) acc =
      (parseDigitsAux s acc).bind (fun a => parseDigitsAux t a) := by
  induction s with
  | nil => intro acc; simp [parseDigitsAux]
  | cons c rest ih =>
    intro acc
    simp only [List.cons_append, parseDigitsAux]
    cases pyDigit c with
    | none => simp
    | some d => simp [ih]

theorem pyDigit_digitChar {n : Nat} (h : n < 10) :
    pyDigit (Nat.digitChar n) = some n := by
  interval_cases n <;> decide

theorem natCharsAux_eval {fuel n : Nat} (h : n < fuel) :
    ∀ acc, parseDigitsAux (natCharsAux fuel n) acc =
      some (acc * 10 ^ (natCharsAux fuel n).length + n) := by
  induction fuel generalizing n with
  | zero => omega
  | succ fuel ih =>
    intro acc
    by_cases hn : n < 10
    · simp [natCharsAux, hn, parseDigitsAux, pyDigit_digitChar hn]
      omega
    · have hdiv : n / 10 < fuel := by omega
      simp only [natCharsAux, if_neg hn]
      rw [parseDigitsAux_append, ih hdiv acc]
      have hm : n % 10 < 10 := Nat.mod_lt _ (by omega)
      simp [parseDigitsAux, pyDigit_digitChar hm, List.length_append]
      generalize hA : acc * 10 ^ (natCharsAux fuel (n / 10)).length = A
      rw [pow_succ, ← Nat.mul_assoc, hA]
      omega

theorem parseDigitsAux_natChars (n : Nat) :
    parseDigitsAux (natChars n) 0 = some n := by
  have h := @natCharsAux_eval (n + 1) n (by omega) 0
  simpa [natChars] using h

theorem natChars_head (n : Nat) :
    ∃ d rest, natChars n = Nat.digitChar d :: rest ∧ d < 10 := by
  suffices h : ∀ fuel m, m < fuel →
      ∃ d rest, natCharsAux fuel m = Nat.digitChar d :: rest ∧ d < 10 by
    exact h (n + 1) n (by omega)
  intro fuel
  induction fuel with
  | zero => omega
  | succ fuel ih =>
    intro m hm
    by_cases h10 : m < 10
    · exact ⟨m, [], by simp [natCharsAux, h10], h10⟩
    · have hdiv : m / 10 < fuel := by omega
      obtain ⟨d, rest, heq, hd⟩ := ih (m / 10) hdiv
      refine ⟨d, rest ++ [Nat.digitChar (m % 10)], ?_, hd⟩
      simp [natCharsAux, h10, heq]

theorem digitChar_not_sign {d : Nat} (h : d < 10) :
    Nat.digitChar d ≠ '-' ∧ Nat.digitChar d ≠ '+' := by
  interval_cases d <;> decide

theorem pyInt_natChars (n : Nat) : pyInt (natChars n) = some (n : Int) := by
  obtain ⟨d, rest, heq, hd⟩ := natChars_head n
  obtain ⟨hminus, hplus⟩ := digitChar_not_sign hd
  have hparse := parseDigitsAux_natChars n
  rw [heq] at hparse ⊢
  simp [pyInt, hminus, hplus, hparse]

theorem decode_encode_nat (n : Nat) :
    decode_cursor_index (encode_cursor_index (n : Int)) = some (n : Int) := by
  have htag : ':' ∉ arrayconnection := by decide
  have hchars : intChars (n : Int) = natChars n := by
    simp [intChars]
  rw [encode_cursor_index, to_base64, decode_cursor_index, from_base64,
    splitColon_append _ _ htag]
  simp [hchars, pyInt_natChars]

/-! ## Data model for `loader.py` -/

/-- A row of the related model: its mapped attributes as a name/value list. -/
structure Row where
  attrs : List (String × Val)
deriving DecidableEq

/-- Python `getattr(row, name)`.  Modelled total: rows of the related model
always carry their mapped columns, so the `AttributeError` branch (here: the
default `0`) is never exercised by any claim. -/
def pygetattr (row : Row) (name : String) : Val :=
  ((row.attrs.find? (fun p => p.1 = name)).map Prod.snd).getD 0

/-- The slice of `sqlalchemy.orm.RelationshipProperty` that `loader.py`
reads: the `remote.key` column names of `local_remote_pairs` (in pair order)
and the `uselist` cardinality flag.  The relationship's `order_by` is
reflected in the order of the database row list. -/
structure RelationshipProperty where
  remote_keys : List String
  uselist : Bool
deriving DecidableEq

/-- `group_by_remote_key` from `load_fn` (loader.py): the tuple of
`getattr(row, remote.key)` for the pairs with a truthy (non-empty) key. -/
def group_by_remote_key (rel : RelationshipProperty) (row : Row) : Key :=
  (rel.remote_keys.filter (fun name => !name.isEmpty)).map (fun name => pygetattr row name)

/-- The key tuple the query filter `tuple_(*[remote ...]).in_(keys)`
compares: the remote columns of all pairs (this list is not filtered by key
truthiness in the source, unlike `group_by_remote_key`). -/
def query_row_key (rel : RelationshipProperty) (row : Row) : Key :=
  rel.remote_keys.map (fun name => pygetattr row name)

/-- One backend execution, as recorded in the call trace: the count query of
`_get_relationship_record_count_for_keys`, or the row-fetching select of
`load_fn` with the offset/limit that was applied to it. -/
inductive BackendCall
  | countQuery (keys : List Key)
  | selectQuery (keys : List Key) (offset limit : Int)
deriving DecidableEq

/-- `_get_relationship_record_count_for_keys` (loader.py): the count of the
related-model rows whose remote-key tuple is one of `keys`. -/
def get_relationship_record_count_for_keys (rel : RelationshipProperty)
    (db : List Row) (keys : List Key) : Nat :=
  (db.filter (fun r => decide (query_row_key rel r ∈ keys))).length

/-- `_get_pagination_offset_limit` (loader.py), with the count query it may
issue recorded in the trace.  Returns `(offset, limit)`; per its docstring a
value of `0` means "not applied to the query". -/
def get_pagination_offset_limit (keys : List Key) (rel : RelationshipProperty)
    (db : List Row) (first : Option Int) (after : Option Cursor)
    (last : Option Int) (before : Option Cursor) :
    (Int × Int) × List BackendCall :=
  let offset : Int :=
    match after with
    | some s =>
      if s.isEmpty then 0
      else
        match decode_cursor_index s with
        | some d => if 0 ≤ d then d + 1 else 0
        | none => 0
    | none => 0
  let before_index : Option Int :=
    match before with
    | some s => if s.isEmpty then none else decode_cursor_index s
    | none => none
  match last with
  | some l =>
    let total_count : Int := (get_relationship_record_count_for_keys rel db keys : Nat)
    match before_index with
    | some b =>
      let items_before_cursor := min b total_count
      ((max 0 (items_before_cursor - l), min l items_before_cursor),
        [BackendCall.countQuery keys])
    | none =>
      ((max 0 (total_count - l), min l total_count), [BackendCall.countQuery keys])
  | none =>
    match before_index with
    | some b => ((offset, if 0 < b then b else 0), [])
    | none =>
      ((offset,
        match first with
        | some f => if 0 ≤ f then f else 0
        | none => 0), [])

/-- One element of the list `load_fn` returns: a row list for a `uselist`
(to-many) relationship, or an optional single row for a to-one one. -/
inductive Entry
  | many (rows : List Row)
  | one (row : Option Row)
deriving DecidableEq

/-- The `grouped_keys` accumulation of `load_fn`: a `defaultdict(list)`
filled by appending each row to the bucket of its `group_by_remote_key`,
modelled as the function from keys to buckets the loop builds. -/
def grouped_keys (rel : RelationshipProperty) (rows : List Row) : Key → List Row :=
  rows.foldl
    (fun m row => fun k =>
      if k = group_by_remote_key rel row then m k ++ [row] else m k)
    (fun _ => [])

/-- The final stage of `load_fn` (loader.py lines 283-288): group the fetched
rows and emit one entry per requested key, `grouped_keys[key]` for `uselist`
relationships and `grouped_keys[key][0] if grouped_keys[key] else None`
otherwise. -/
def resolve_grouped (rel : RelationshipProperty) (keys : List Key)
    (rows : List Row) : List Entry :=
  let grouped := grouped_keys rel rows
  if rel.uselist then keys.map (fun k => Entry.many (grouped k))
  else keys.map (fun k => Entry.one (grouped k).head?)

/-- `load_fn` (loader.py): validate the pagination-argument combination,
compute the pagination plan, execute the filtered/offset/limited select
against the ordered row list `db`, and group the result per requested key.
The second component is the trace of backend executions. -/
def load_fn (rel : RelationshipProperty) (db : List Row) (keys : List Key)
    (first : Option Int) (after : Option Cursor) (last : Option Int)
    (before : Option Cursor) :
    Except String (List Entry) × List BackendCall :=
  if first.isSome ∧ last.isSome then
    (Except.error "Cannot provide both first and last", [])
  else if first.isSome ∧ before.isSome then
    (Except.error "Cannot provide both first and before", [])
  else if last.isSome ∧ after.isSome then
    (Except.error "Cannot provide both last and after", [])
  else
    let plan := get_pagination_offset_limit keys rel db first after last before
    let offset := plan.1.1
    let limit := plan.1.2
    let filtered := db.filter (fun r => decide (query_row_key rel r ∈ keys))
    let shifted := if 0 < offset then filtered.drop offset.toNat else filtered
    let rows := if 0 < limit then shifted.take limit.toNat else shifted
    (Except.ok (resolve_grouped rel keys rows),
      plan.2 ++ [BackendCall.selectQuery keys offset limit])

/-! ## Grouping lemmas -/

theorem grouped_keys_foldl (rel : RelationshipProperty) (rows : List Row) :
    ∀ (m : Key → List Row) (k : Key),
      (rows.foldl
        (fun m row => fun k =>
          if k = group_by_remote_key rel row then m k ++ [row] else m k)
        m) k
      = m k ++ rows.filter (fun r => decide (group_by_remote_key rel r = k)) := by
  induction rows with
  | nil => intro m k; simp
  | cons r rest ih =>
    intro m k
    simp only [List.foldl_cons, ih]
    by_cases hk : k = group_by_remote_key rel r
    · simp [hk, List.filter_cons, List.append_assoc]
    · have hk2 : ¬(group_by_remote_key rel r = k) := fun h => hk h.symm
      simp [hk, hk2, List.filter_cons]

theorem grouped_keys_eq_filter (rel : RelationshipProperty) (rows : List Row)
    (k : Key) :
    grouped_keys rel rows k
      = rows.filter (fun r => decide (group_by_remote_key rel r = k)) := by
  simpa using grouped_keys_foldl rel rows (fun _ => []) k

/-- Example fixtures, mirroring the repository's unit-test setup
(`tests/test_loader.py`): `mkRow d n` is the n-th employee row of department
`d`, `relMany`/`relOne` the to-many and to-one shapes of the relationship
whose remote column is `department_id`. -/
def mkRow (d n : Val) : Row := ⟨[("department_id", d), ("id", n)]⟩

/-- The to-many relationship used by the concrete witnesses. -/
def relMany : RelationshipProperty := ⟨["department_id"], true⟩

/-- The to-one relationship used by the concrete witnesses. -/
def relOne : RelationshipProperty := ⟨["department_id"], false⟩

/-! ## C1 -/

/-- C1: for every batched load, given the requested keys and the rows the
backend fetch returned, the result list of `load_fn`'s grouping stage
(`resolve_grouped`) has exactly one entry per requested key, positionally in
request order, and independent of the order of the fetched rows in the sense
that the entry at position `i` is determined by `keys[i]` alone (the rows
matching it, in fetched order); a to-many key with no matching rows maps to
`Entry.many []` and a to-one key with no matching rows maps to
`Entry.one none` (the function is total, so nothing is raised). -/
theorem claim_c1_entry_per_key (rel : RelationshipProperty) (keys : List Key)
    (rows : List Row) :
    (resolve_grouped rel keys rows).length = keys.length ∧
    (∀ (i : Nat) (k : Key), keys[i]? = some k →
      (resolve_grouped rel keys rows)[i]? =
        some (if rel.uselist then
          Entry.many (rows.filter (fun r => decide (group_by_remote_key rel r = k)))
        else
          Entry.one (rows.filter (fun r => decide (group_by_remote_key rel r = k))).head?)) ∧
    (∀ (i : Nat) (k : Key), keys[i]? = some k →
      (∀ r ∈ rows, group_by_remote_key rel r ≠ k) →
      (resolve_grouped rel keys rows)[i]? =
        some (if rel.uselist then Entry.many [] else Entry.one none)) := by
  refine ⟨?_, ?_, ?_⟩
  · unfold resolve_grouped
    by_cases hu : rel.uselist <;> simp [hu]
  · intro i k hik
    unfold resolve_grouped
    by_cases hu : rel.uselist <;>
      simp [hu, List.getElem?_map, hik, grouped_keys_eq_filter]
  · intro i k hik hnone
    have hfil : rows.filter (fun r => decide (group_by_remote_key rel r = k)) = [] := by
      apply List.filter_eq_nil_iff.mpr
      intro r hr
      simpa using hnone r hr
    unfold resolve_grouped
    by_cases hu : rel.uselist <;>
      simp [hu, List.getElem?_map, hik, grouped_keys_eq_filter, hfil] <;>
      exact fun r hr => hnone r hr

/-- Witness for C1 at a concrete input: two requested keys, the second of
which matches no row; the result has one entry per key, and the unmatched
to-many key yields the empty list. -/
theorem claim_c1_entry_per_key_witness :
    (resolve_grouped relMany [[1], [5]] [mkRow 1 0]).length = 2 ∧
    (resolve_grouped relMany [[1], [5]] [mkRow 1 0])[1]? = some (Entry.many []) := by
  refine ⟨(claim_c1_entry_per_key relMany [[1], [5]] [mkRow 1 0]).1, ?_⟩
  have h := (claim_c1_entry_per_key relMany [[1], [5]] [mkRow 1 0]).2.2 1 [5]
    (by decide) (by decide)
  simpa [relMany] using h

/-! ## C2 -/

/-- C2: whenever both `first` and `last`, or `first` with `before`, or `last`
with `after` are supplied, `load_fn` raises a validation error and the
backend is never invoked (the execution trace is empty). -/
theorem claim_c2_invalid_combo (rel : RelationshipProperty) (db : List Row)
    (keys : List Key) (first : Option Int) (after : Option Cursor)
    (last : Option Int) (before : Option Cursor)
    (h : (first.isSome ∧ last.isSome) ∨ (first.isSome ∧ before.isSome) ∨
      (last.isSome ∧ after.isSome)) :
    (∃ e, (load_fn rel db keys first after last before).1 = Except.error e) ∧
    (load_fn rel db keys first after last before).2 = [] := by
  unfold load_fn
  split_ifs with h1 h2 h3
  · exact ⟨⟨_, rfl⟩, rfl⟩
  · exact ⟨⟨_, rfl⟩, rfl⟩
  · exact ⟨⟨_, rfl⟩, rfl⟩
  · tauto

/-- Witness for C2 at a concrete input: `first=2, last=3` is rejected with no
backend call. -/
theorem claim_c2_invalid_combo_witness :
    (∃ e, (load_fn relMany [mkRow 1 0] [[1]] (some 2) none (some 3) none).1 =
      Except.error e) ∧
    (load_fn relMany [mkRow 1 0] [[1]] (some 2) none (some 3) none).2 = [] :=
  claim_c2_invalid_combo relMany [mkRow 1 0] [[1]] (some 2) none (some 3) none
    (Or.inl (by decide))

/-! ## C5: the `last` window -/

/-- C5: for every load with `last = l`, the computed pagination window is:
without `before`, `offset = max 0 (T - l)` and `limit = min l T`; with a
well-formed `before` decoding to `b`, `offset = max 0 (min b T - l)` and
`limit = min l (min b T)`; in both cases `T` is the total matching row count
and is obtained by exactly one extra count query (the trace holds exactly the
count call).  `first` and `after` are arbitrary: the `last` branch overwrites
any `after`-derived offset. -/
theorem claim_c5_last_window (rel : RelationshipProperty) (db : List Row)
    (keys : List Key) (first : Option Int) (after : Option Cursor) (l : Int)
    (T : Int)
    (hT : T = (get_relationship_record_count_for_keys rel db keys : Int)) :
    (get_pagination_offset_limit keys rel db first after (some l) none =
      ((max 0 (T - l), min l T), [BackendCall.countQuery keys])) ∧
    (∀ (s : Cursor) (b : Int), s.isEmpty = false → decode_cursor_index s = some b →
      get_pagination_offset_limit keys rel db first after (some l) (some s) =
        ((max 0 (min b T - l), min l (min b T)), [BackendCall.countQuery keys])) := by
  subst hT
  constructor
  · rfl
  · intro s b hs hdec
    simp [get_pagination_offset_limit, hs, hdec]

/-- Witness for C5 at a concrete input: four matching rows, `last=2`,
`before` at index 2. -/
theorem claim_c5_last_window_witness :
    (encode_cursor_index 2).isEmpty = false ∧
    decode_cursor_index (encode_cursor_index 2) = some 2 ∧
    get_pagination_offset_limit [[1]] relMany
        [mkRow 1 0, mkRow 1 1, mkRow 1 2, mkRow 1 3] none none (some 2)
        (some (encode_cursor_index 2)) =
      ((max 0 (min 2 4 - 2), min 2 (min 2 4)), [BackendCall.countQuery [[1]]]) :=
  ⟨by decide, by decide,
    (claim_c5_last_window relMany [mkRow 1 0, mkRow 1 1, mkRow 1 2, mkRow 1 3]
      [[1]] none none 2 4 (by decide)).2 (encode_cursor_index 2) 2
      (by decide) (by decide)⟩

/-! ## C6: the forward/default window -/

/-- The `after`-derived start offset computed at the top of
`_get_pagination_offset_limit` (loader.py lines 180-185): `decoded + 1` when
the cursor is supplied, decodes, and is non-negative, else `0`. -/
def after_offset (after : Option Cursor) : Int :=
  match after with
  | some s =>
    if s.isEmpty then 0
    else
      match decode_cursor_index s with
      | some d => if 0 ≤ d then d + 1 else 0
      | none => 0
  | none => 0

/-- The limit the forward/default branch of `_get_pagination_offset_limit`
computes (loader.py lines 220-223): `first` when supplied and non-negative,
else `0` — and per the docstring `0` means the limit is not applied. -/
def first_limit (first : Option Int) : Int :=
  match first with
  | some f => if 0 ≤ f then f else 0
  | none => 0

theorem after_offset_nonneg (after : Option Cursor) : 0 ≤ after_offset after := by
  unfold after_offset
  cases after with
  | none => simp
  | some s =>
    by_cases hs : s.isEmpty <;> simp [hs]
    cases decode_cursor_index s with
    | none => simp
    | some d => by_cases hd : 0 ≤ d <;> simp [hd] <;> omega

theorem forward_plan_eq (rel : RelationshipProperty) (db : List Row)
    (keys : List Key) (first : Option Int) (after : Option Cursor) :
    get_pagination_offset_limit keys rel db first after none none =
      ((after_offset after, first_limit first), []) := rfl

/-- The select of `load_fn` always drops `offset.toNat` rows: when the
computed offset is positive this is the `query.offset(...)` call, and when it
is `0` the guard `if offset > 0` skips it, which drops nothing. -/
theorem load_shift_eq (filtered : List Row) (offset : Int) (h : 0 ≤ offset) :
    (if 0 < offset then filtered.drop offset.toNat else filtered) =
      filtered.drop offset.toNat := by
  by_cases hpos : 0 < offset
  · simp [hpos]
  · have : offset = 0 := by omega
    simp [this]

/-- C6, counterexample to the claim as stated: the claim says the applied row
limit equals `first` whenever `first` is given, but with `first = 0` the
computed limit `0` is "not applied" (per the docstring of
`_get_pagination_offset_limit`), so the load returns every matching row
instead of zero rows; likewise nothing in this path substitutes a configured
maximum page size when `first` is absent (the same unlimited fetch happens). -/
theorem claim_c6_counterexample :
    (load_fn relMany [mkRow 1 0, mkRow 1 1] [[1]] (some 0) none none none).1 =
      Except.ok [Entry.many [mkRow 1 0, mkRow 1 1]] ∧
    (load_fn relMany [mkRow 1 0, mkRow 1 1] [[1]] none none none none).1 =
      Except.ok [Entry.many [mkRow 1 0, mkRow 1 1]] := by decide

/-- C6 as amended: for every forward/default load (no `last`, no `before`),
the pagination trace is empty (no extra count query), the offset is the
`after`-derived start (`decoded + 1` for a well-formed non-negative cursor,
else `0`), and the applied row cap equals `first` when `first` is positive;
when `first` is absent, zero, or negative, no limit at all is applied — the
fetch is unbounded, there is no configured maximum page size in this path. -/
theorem claim_c6_amended_forward (rel : RelationshipProperty) (db : List Row)
    (keys : List Key) (first : Option Int) (after : Option Cursor) :
    (get_pagination_offset_limit keys rel db first after none none =
      ((after_offset after, first_limit first), [])) ∧
    (∀ f : Int, first = some f → 0 < f →
      (load_fn rel db keys first after none none).1 =
        Except.ok (resolve_grouped rel keys
          (((db.filter (fun r => decide (query_row_key rel r ∈ keys))).drop
            (after_offset after).toNat).take f.toNat))) ∧
    (first = none →
      (load_fn rel db keys first after none none).1 =
        Except.ok (resolve_grouped rel keys
          ((db.filter (fun r => decide (query_row_key rel r ∈ keys))).drop
            (after_offset after).toNat))) ∧
    (∀ f : Int, first = some f → f ≤ 0 →
      (load_fn rel db keys first after none none).1 =
        Except.ok (resolve_grouped rel keys
          ((db.filter (fun r => decide (query_row_key rel r ∈ keys))).drop
            (after_offset after).toNat))) := by
  refine ⟨forward_plan_eq rel db keys first after, ?_, ?_, ?_⟩
  · intro f hf hpos
    subst hf
    unfold load_fn
    simp only [Option.isSome_some, Option.isSome_none, false_and, and_false,
      if_neg, ite_false, reduceIte]
    rw [forward_plan_eq]
    have hlim : first_limit (some f) = f := by
      simp [first_limit, le_of_lt hpos]
    simp only [hlim]
    rw [load_shift_eq _ _ (after_offset_nonneg after)]
    simp [hpos]
  · intro hf
    subst hf
    unfold load_fn
    simp only [Option.isSome_some, Option.isSome_none, false_and, and_false,
      if_neg, ite_false, reduceIte]
    rw [forward_plan_eq]
    have hlim : first_limit (none : Option Int) = 0 := rfl
    simp only [hlim]
    rw [load_shift_eq _ _ (after_offset_nonneg after)]
    simp
  · intro f hf hneg
    subst hf
    unfold load_fn
    simp only [Option.isSome_some, Option.isSome_none, false_and, and_false,
      if_neg, ite_false, reduceIte]
    rw [forward_plan_eq]
    have hlim : ¬(0 < first_limit (some f)) := by
      simp only [first_limit]
      by_cases h0 : 0 ≤ f <;> simp [h0] <;> omega
    rw [load_shift_eq _ _ (after_offset_nonneg after)]
    simp [hlim]

/-- Witness for C6 (amended) at a concrete input: `first = 2` caps the fetch
at two rows. -/
theorem claim_c6_amended_forward_witness :
    (load_fn relMany [mkRow 1 0, mkRow 1 1, mkRow 1 2] [[1]] (some 2) none none none).1 =
      Except.ok (resolve_grouped relMany [[1]]
        ((([mkRow 1 0, mkRow 1 1, mkRow 1 2].filter
          (fun r => decide (query_row_key relMany r ∈ [[1]]))).drop
          (after_offset none).toNat).take (2 : Int).toNat) ) :=
  (claim_c6_amended_forward relMany [mkRow 1 0, mkRow 1 1, mkRow 1 2] [[1]]
    (some 2) none).2.1 2 rfl (by decide)

/-! ## C7: the `before` window bound -/

theorem drop_then_take {α : Type} (l : List α) (m n : Nat) :
    (l.drop m).take n = (l.take (m + n)).drop m := by
  have h := List.drop_take (m + n) m l
  simpa using h.symm

/-- C7, counterexample to the claim as stated: with `after` at index 0 and
`before` at index 2, the code treats the decoded `before` index purely as a
row-count limit (loader.py lines 215-219), so the returned slice is rows 1
and 2 of the ordered sequence — the row at index 2 appears even though the
claim says the window ends at index `b = 2` exclusive. -/
theorem claim_c7_counterexample :
    decode_cursor_index (encode_cursor_index 2) = some 2 ∧
    (load_fn relMany [mkRow 1 0, mkRow 1 1, mkRow 1 2, mkRow 1 3] [[1]]
        none (some (encode_cursor_index 0)) none (some (encode_cursor_index 2))).1 =
      Except.ok [Entry.many [mkRow 1 1, mkRow 1 2]] ∧
    [mkRow 1 0, mkRow 1 1, mkRow 1 2, mkRow 1 3][2]? = some (mkRow 1 2) := by
  decide

/-- C7 as amended: the `before` bound `b` is an exclusive window end only in
two situations — when `last` is also given (and the computed limit
`min last (min b T)` is positive), where the fetched slice lies inside the
first `min b T` rows; and when `before` is given alone (no `after`, no
`last`) with `b > 0`, where the fetch is exactly the first `b` rows.  When
`before` is combined with `after`, the decoded index acts as a bare row-count
limit starting at the `after` offset, so rows at index `b` and beyond can
appear (the situation of the counterexample); and when the computed limit is
not positive it is not applied at all. -/
theorem claim_c7_amended_before_window (rel : RelationshipProperty)
    (db : List Row) (keys : List Key) (s : Cursor) (b : Int)
    (hs : s.isEmpty = false) (hdec : decode_cursor_index s = some b)
    (T : Int)
    (hT : T = (get_relationship_record_count_for_keys rel db keys : Int)) :
    (∀ l : Int, 0 < min l (min b T) →
      (load_fn rel db keys none none (some l) (some s)).1 =
        Except.ok (resolve_grouped rel keys
          (((db.filter (fun r => decide (query_row_key rel r ∈ keys))).take
            (min b T).toNat).drop (max 0 (min b T - l)).toNat))) ∧
    (0 < b →
      (load_fn rel db keys none none none (some s)).1 =
        Except.ok (resolve_grouped rel keys
          ((db.filter (fun r => decide (query_row_key rel r ∈ keys))).take
            b.toNat))) := by
  constructor
  · intro l hpos
    unfold load_fn
    simp only [Option.isSome_some, Option.isSome_none, false_and, and_false,
      if_neg, ite_false, reduceIte]
    have hplan : get_pagination_offset_limit keys rel db none none (some l) (some s) =
        ((max 0 (min b T - l), min l (min b T)), [BackendCall.countQuery keys]) := by
      subst hT
      simp [get_pagination_offset_limit, hs, hdec]
    simp only [hplan]
    rw [load_shift_eq _ _ (le_max_left 0 _)]
    rw [if_pos hpos]
    rw [drop_then_take]
    have hsum : (max 0 (min b T - l)).toNat + (min l (min b T)).toNat =
        (min b T).toNat := by omega
    rw [hsum]
    simp
  · intro hb
    unfold load_fn
    simp only [Option.isSome_some, Option.isSome_none, false_and, and_false,
      if_neg, ite_false, reduceIte]
    have hplan : get_pagination_offset_limit keys rel db none none none (some s) =
        ((0, if 0 < b then b else 0), []) := by
      simp [get_pagination_offset_limit, hs, hdec]
    simp only [hplan]
    simp [hb]

/-- Witness for C7 (amended) at a concrete input: `last=2, before` at index 3
over four matching rows fetches rows 1 and 2, inside the first three. -/
theorem claim_c7_amended_before_window_witness :
    (encode_cursor_index 3).isEmpty = false ∧
    decode_cursor_index (encode_cursor_index 3) = some 3 ∧
    (0 : Int) < min 2 (min 3 4) ∧
    (load_fn relMany [mkRow 1 0, mkRow 1 1, mkRow 1 2, mkRow 1 3] [[1]]
        none none (some 2) (some (encode_cursor_index 3))).1 =
      Except.ok (resolve_grouped relMany [[1]]
        ((([mkRow 1 0, mkRow 1 1, mkRow 1 2, mkRow 1 3].filter
          (fun r => decide (query_row_key relMany r ∈ [[1]]))).take
          (min (3 : Int) 4).toNat).drop (max 0 (min (3 : Int) 4 - 2)).toNat)) :=
  ⟨by decide, by decide, by decide,
    (claim_c7_amended_before_window relMany
      [mkRow 1 0, mkRow 1 1, mkRow 1 2, mkRow 1 3] [[1]]
      (encode_cursor_index 3) 3 (by decide) (by decide) 4 (by decide)).1 2
      (by decide)⟩

/-! ## C3: malformed cursors -/

theorem plan_ignores_bad_after (keys : List Key) (rel : RelationshipProperty)
    (db : List Row) (first : Option Int) (last : Option Int)
    (before : Option Cursor) (s : Cursor)
    (hdec : decode_cursor_index s = none) :
    get_pagination_offset_limit keys rel db first (some s) last before =
      get_pagination_offset_limit keys rel db first none last before := by
  unfold get_pagination_offset_limit
  by_cases hs : s.isEmpty <;> simp [hs, hdec]

theorem plan_ignores_bad_before (keys : List Key) (rel : RelationshipProperty)
    (db : List Row) (first : Option Int) (after : Option Cursor)
    (last : Option Int) (s : Cursor)
    (hdec : decode_cursor_index s = none) :
    get_pagination_offset_limit keys rel db first after last (some s) =
      get_pagination_offset_limit keys rel db first after last none := by
  unfold get_pagination_offset_limit
  by_cases hs : s.isEmpty <;> simp [hs, hdec]

/-- C3, counterexample to the claim as stated: the cursor `"x"` fails to
decode, yet the load does not surface any validation error — it returns
exactly what the cursorless load returns (all matching rows), i.e. the
malformed `after` is silently ignored.  (The source comment in
`decode_cursor_index` even says "If decoding fails, default to no offset".) -/
theorem claim_c3_counterexample :
    decode_cursor_index [ 'x' ] = none ∧
    load_fn relMany [mkRow 1 0, mkRow 1 1] [[1]] none (some [ 'x' ]) none none =
      load_fn relMany [mkRow 1 0, mkRow 1 1] [[1]] none none none none ∧
    (load_fn relMany [mkRow 1 0, mkRow 1 1] [[1]] none (some [ 'x' ]) none none).1 =
      Except.ok [Entry.many [mkRow 1 0, mkRow 1 1]] := by decide

/-- C3 as amended: a supplied `after` or `before` cursor whose decoding fails
is silently ignored rather than surfaced as a validation error: whenever the
argument combination passes validation (`last` absent for a malformed
`after`; `first` absent for a malformed `before`), the load behaves exactly
as if the malformed cursor had not been supplied, backend trace included.
(The malformed cursor still counts as "present" for combination validation.) -/
theorem claim_c3_amended_silent_ignore (rel : RelationshipProperty)
    (db : List Row) (keys : List Key) (s : Cursor)
    (hdec : decode_cursor_index s = none) :
    (∀ (first : Option Int) (before : Option Cursor),
      load_fn rel db keys first (some s) none before =
        load_fn rel db keys first none none before) ∧
    (∀ (after : Option Cursor) (last : Option Int),
      load_fn rel db keys none after last (some s) =
        load_fn rel db keys none after last none) := by
  constructor
  · intro first before
    unfold load_fn
    rw [plan_ignores_bad_after keys rel db first none before s hdec]
    simp
  · intro after last
    unfold load_fn
    rw [plan_ignores_bad_before keys rel db none after last s hdec]
    simp

/-- Witness for C3 (amended) at a concrete input: the undecodable cursor
`"x"` supplied as `after` leaves the load identical to the cursorless one. -/
theorem claim_c3_amended_silent_ignore_witness :
    decode_cursor_index [ 'x' ] = none ∧
    load_fn relMany [mkRow 1 0] [[1]] (some 1) (some [ 'x' ]) none none =
      load_fn relMany [mkRow 1 0] [[1]] (some 1) none none none :=
  ⟨by decide,
    (claim_c3_amended_silent_ignore relMany [mkRow 1 0] [[1]] [ 'x' ]
      (by decide)).1 (some 1) none⟩

/-! ## C8: cursor round-trip -/

/-- C8: for every offset `o` in `[0, 10^6)`, decoding the cursor produced by
`encode_cursor_index` yields back exactly `o`: position-cursor encoding is a
reversible round-trip (the proof in fact never uses the upper bound). -/
theorem claim_c8_cursor_roundtrip (o : Nat) (h : o < 1000000) :
    decode_cursor_index (encode_cursor_index (o : Int)) = some (o : Int) :=
  decode_encode_nat o

/-- Witness for C8 at the concrete offset 123456. -/
theorem claim_c8_cursor_roundtrip_witness :
    (123456 : Nat) < 1000000 ∧
    decode_cursor_index (encode_cursor_index ((123456 : Nat) : Int)) =
      some ((123456 : Nat) : Int) :=
  ⟨by decide, claim_c8_cursor_roundtrip 123456 (by decide)⟩

/-! ## C10: the limit is applied to the whole batch -/

/-- The number of rows an entry of a `load_fn` result carries. -/
def entry_size : Entry → Nat
  | Entry.many rows => rows.length
  | Entry.one (some _) => 1
  | Entry.one none => 0

theorem sum_filter_length {α κ : Type} [DecidableEq κ] (keyOf : α → κ) :
    ∀ (ks : List κ) (rows : List α), ks.Nodup → (∀ r ∈ rows, keyOf r ∈ ks) →
      (ks.map (fun k => (rows.filter (fun r => decide (keyOf r = k))).length)).sum
        = rows.length := by
  intro ks
  induction ks with
  | nil =>
    intro rows _ hcov
    have hnil : rows = [] :=
      List.eq_nil_iff_forall_not_mem.mpr (fun a ha => by simpa using hcov a ha)
    simp [hnil]
  | cons k ks ih =>
    intro rows hnd hcov
    have hk : k ∉ ks := (List.nodup_cons.mp hnd).1
    have hnd2 : ks.Nodup := (List.nodup_cons.mp hnd).2
    have hcov2 : ∀ r ∈ rows.filter (fun r => !(decide (keyOf r = k))),
        keyOf r ∈ ks := by
      intro r hr
      have hr2 := List.mem_filter.mp hr
      have hmem : keyOf r ∈ k :: ks := hcov r hr2.1
      have hne : keyOf r ≠ k := by simpa using hr2.2
      rcases List.mem_cons.mp hmem with h | h
      · exact absurd h hne
      · exact h
    have hstep : ∀ k2 ∈ ks, rows.filter (fun r => decide (keyOf r = k2))
        = (rows.filter (fun r => !(decide (keyOf r = k)))).filter
            (fun r => decide (keyOf r = k2)) := by
      intro k2 hk2
      have hne : k2 ≠ k := fun h => hk (h ▸ hk2)
      rw [List.filter_filter]
      apply List.filter_congr
      intro a _
      by_cases hak : keyOf a = k2
      · have : keyOf a ≠ k := fun h => hne (hak.symm.trans h)
        simp [hak, this, hne]
      · simp [hak]
    have hmap : ks.map (fun k2 => (rows.filter (fun r => decide (keyOf r = k2))).length)
        = ks.map (fun k2 => ((rows.filter (fun r => !(decide (keyOf r = k)))).filter
            (fun r => decide (keyOf r = k2))).length) := by
      apply List.map_congr_left
      intro k2 hk2
      rw [hstep k2 hk2]
    simp only [List.map_cons, List.sum_cons, hmap,
      ih _ hnd2 hcov2]
    exact (List.length_eq_length_filter_add (fun r => decide (keyOf r = k))).symm

theorem group_key_eq_query_key (rel : RelationshipProperty) (row : Row)
    (h : ∀ n ∈ rel.remote_keys, n.isEmpty = false) :
    group_by_remote_key rel row = query_row_key rel row := by
  unfold group_by_remote_key query_row_key
  congr 1
  apply List.filter_eq_self.mpr
  intro a ha
  simp [h a ha]

/-- C10 (implicit claim): the computed limit applies to the single combined
query over all keys batched together, not per key — when a batch of distinct
keys runs with `first = f > 0`, the total number of rows across all returned
entries is at most `f`; consequently a key's slice depends on which other
keys share its batch, exhibited concretely by the same database giving key
`[1]` one row when loaded alone but zero rows when batched after key `[2]`. -/
theorem claim_c10_batch_limit :
    (∀ (rel : RelationshipProperty) (db : List Row) (keys : List Key) (f : Int),
      rel.uselist = true → keys.Nodup →
      (∀ n ∈ rel.remote_keys, n.isEmpty = false) → 0 < f →
      ∃ entries, (load_fn rel db keys (some f) none none none).1 = Except.ok entries ∧
        (entries.map entry_size).sum ≤ f.toNat) ∧
    ((load_fn relMany [mkRow 2 0, mkRow 1 1] [[1]] (some 1) none none none).1 =
      Except.ok [Entry.many [mkRow 1 1]] ∧
    (load_fn relMany [mkRow 2 0, mkRow 1 1] [[2], [1]] (some 1) none none none).1 =
      Except.ok [Entry.many [mkRow 2 0], Entry.many []]) := by
  constructor
  · intro rel db keys f hu hnd hcols hf
    unfold load_fn
    simp only [Option.isSome_some, Option.isSome_none, false_and, and_false,
      if_neg, ite_false, reduceIte]
    rw [forward_plan_eq]
    have hlim : first_limit (some f) = f := by
      simp [first_limit, le_of_lt hf]
    simp only [hlim]
    have hoff : after_offset none = 0 := rfl
    rw [load_shift_eq _ _ (after_offset_nonneg none), hoff]
    rw [if_pos hf]
    simp only [Int.toNat_zero, List.drop_zero]
    refine ⟨_, rfl, ?_⟩
    set fetched := (db.filter (fun r => decide (query_row_key rel r ∈ keys))).take f.toNat
      with hfetched
    have hcov : ∀ r ∈ fetched, group_by_remote_key rel r ∈ keys := by
      intro r hr
      rw [group_key_eq_query_key rel r hcols]
      have hr2 : r ∈ db.filter (fun r => decide (query_row_key rel r ∈ keys)) :=
        List.mem_of_mem_take hr
      simpa using (List.mem_filter.mp hr2).2
    have hsizes : (resolve_grouped rel keys fetched).map entry_size
        = keys.map (fun k =>
            (fetched.filter (fun r => decide (group_by_remote_key rel r = k))).length) := by
      unfold resolve_grouped
      simp only [hu, if_pos]
      rw [List.map_map]
      apply List.map_congr_left
      intro k _
      simp [entry_size, grouped_keys_eq_filter]
    rw [hsizes, sum_filter_length (group_by_remote_key rel) keys fetched hnd hcov,
      hfetched]
    exact List.length_take_le _ _
  · exact ⟨by decide, by decide⟩

/-- Witness for C10 at a concrete input: a two-key batch with `first = 1`
returns at most one row in total. -/
theorem claim_c10_batch_limit_witness :
    relMany.uselist = true ∧ ([[2], [1]] : List Key).Nodup ∧
    (∀ n ∈ relMany.remote_keys, n.isEmpty = false) ∧ (0 : Int) < 1 ∧
    (∃ entries,
      (load_fn relMany [mkRow 2 0, mkRow 1 1] [[2], [1]] (some 1) none none none).1 =
        Except.ok entries ∧
      (entries.map entry_size).sum ≤ (1 : Int).toNat) :=
  ⟨rfl, by decide, by decide, by decide,
    claim_c10_batch_limit.1 relMany [mkRow 2 0, mkRow 1 1] [[2], [1]] 1
      rfl (by decide) (by decide) (by decide)⟩

/-! ## C4: coalescing -/

/-- One value of the `pagination_key` tuple built by
`PaginatedLoader.loader_for` (loader.py lines 54-63): an integer
(`first`/`last`) or a cursor string (`after`/`before`). -/
inductive PagArg
  | int (i : Int)
  | cur (s : Cursor)
deriving DecidableEq

/-- The `pagination_key` tuple of `PaginatedLoader.loader_for`: the labelled
arguments that are not `None`, in the fixed order first, after, last,
before. -/
def pagination_key (first : Option Int) (after : Option Cursor)
    (last : Option Int) (before : Option Cursor) : List (String × PagArg) :=
  (match first with | some f => [("first", PagArg.int f)] | none => []) ++
  (match after with | some a => [("after", PagArg.cur a)] | none => []) ++
  (match last with | some l => [("last", PagArg.int l)] | none => []) ++
  (match before with | some b => [("before", PagArg.cur b)] | none => [])

/-- The `_loaders` dict of `PaginatedLoader`: each pagination key already
seen, with the identity of the `DataLoader` created for it. -/
structure PaginatedLoaderState where
  loaders : List ((List (String × PagArg)) × Nat)
deriving DecidableEq

/-- `PaginatedLoader.loader_for` (loader.py lines 46-80): look the pagination
key up in `_loaders`, returning the cached `DataLoader` when present and
otherwise storing and returning a fresh one (here: the next identity). -/
def loader_for (st : PaginatedLoaderState) (first : Option Int)
    (after : Option Cursor) (last : Option Int) (before : Option Cursor) :
    PaginatedLoaderState × Nat :=
  let pk := pagination_key first after last before
  match st.loaders.find? (fun p => decide (p.1 = pk)) with
  | some p => (st, p.2)
  | none => (⟨st.loaders ++ [(pk, st.loaders.length)]⟩, st.loaders.length)

/-- Modelled from the spec: §4.4 flush "collects all Keys from the batch's
PendingRequests (order of first appearance)" — key collection with
request-level dedup, keeping the first occurrence. -/
def collect_keys (seen : List Key) : List Key → List Key
  | [] => []
  | k :: rest =>
    if k ∈ seen then collect_keys seen rest
    else k :: collect_keys (k :: seen) rest

/-- Modelled from the spec: §4.4 BatchCoordinator (in the running system the
engine is `strawberry.dataloader.DataLoader`, a third-party library that is
not part of src/).  One scheduling window for one (relationship,
pagination-signature) pair: at the flush the batch's keys are collected in
order of first appearance, the backend fetch is issued once for the whole
batch (the first component is the list of fetch invocations), and every
pending request is resolved from that single fetch's grouped result. -/
def batch_window (fetch : List Key → List Row) (rel : RelationshipProperty)
    (requests : List Key) : List (List Key) × List Entry :=
  if requests.isEmpty then ([], [])
  else
    let batchKeys := collect_keys [] requests
    ([batchKeys], resolve_grouped rel requests (fetch batchKeys))

theorem mem_collect_keys (k : Key) :
    ∀ (l : List Key) (seen : List Key),
      k ∈ collect_keys seen l ↔ (k ∈ l ∧ k ∉ seen) := by
  intro l
  induction l with
  | nil => intro seen; simp [collect_keys]
  | cons a rest ih =>
    intro seen
    by_cases ha : a ∈ seen
    · rw [collect_keys, if_pos ha, ih]
      constructor
      · rintro ⟨hmem, hns⟩
        exact ⟨List.mem_cons_of_mem a hmem, hns⟩
      · rintro ⟨hmem, hns⟩
        rcases List.mem_cons.mp hmem with rfl | hmem
        · exact absurd ha hns
        · exact ⟨hmem, hns⟩
    · rw [collect_keys, if_neg ha]
      constructor
      · intro hmem
        rcases List.mem_cons.mp hmem with rfl | hmem
        · exact ⟨List.mem_cons_self _ _, ha⟩
        · have := (ih (a :: seen)).mp hmem
          refine ⟨List.mem_cons_of_mem a this.1, fun hk => this.2 ?_⟩
          exact List.mem_cons_of_mem a hk
      · rintro ⟨hmem, hns⟩
        rcases List.mem_cons.mp hmem with rfl | hmem
        · exact List.mem_cons_self _ _
        · by_cases hka : k = a
          · subst hka; exact List.mem_cons_self _ _
          · refine List.mem_cons_of_mem _ ((ih (a :: seen)).mpr ⟨hmem, ?_⟩)
            intro hk
            rcases List.mem_cons.mp hk with h | h
            · exact hka h
            · exact hns h

theorem nodup_collect_keys :
    ∀ (l : List Key) (seen : List Key), (collect_keys seen l).Nodup := by
  intro l
  induction l with
  | nil => intro seen; simp [collect_keys]
  | cons a rest ih =>
    intro seen
    by_cases ha : a ∈ seen
    · rw [collect_keys, if_pos ha]; exact ih seen
    · rw [collect_keys, if_neg ha]
      refine List.nodup_cons.mpr ⟨?_, ih (a :: seen)⟩
      intro hmem
      exact ((mem_collect_keys a rest (a :: seen)).mp hmem).2 (List.mem_cons_self _ _)

/-- C4: same-signature loads coalesce.  First conjunct (from src/):
`PaginatedLoader.loader_for` returns the identical cached `DataLoader` when
called again with the same pagination arguments, so every such load joins the
same loader.  Second conjunct (modelled from the spec, §4.4): within one
scheduling window of that loader the backend fetch is invoked exactly once,
on the deduplicated keys (which are exactly the requested ones), and every
one of the N `load(key)` calls is resolved from that single fetch's grouped
result. -/
theorem claim_c4_coalescing :
    (∀ (st : PaginatedLoaderState) (first : Option Int) (after : Option Cursor)
        (last : Option Int) (before : Option Cursor),
      loader_for (loader_for st first after last before).1 first after last before =
        loader_for st first after last before) ∧
    (∀ (fetch : List Key → List Row) (rel : RelationshipProperty)
        (requests : List Key), requests ≠ [] →
      (batch_window fetch rel requests).1 = [collect_keys [] requests] ∧
      (collect_keys [] requests).Nodup ∧
      (∀ k, k ∈ collect_keys [] requests ↔ k ∈ requests) ∧
      (batch_window fetch rel requests).2 =
        resolve_grouped rel requests (fetch (collect_keys [] requests))) := by
  constructor
  · intro st first after last before
    unfold loader_for
    cases hfind : st.loaders.find? (fun p =>
        decide (p.1 = pagination_key first after last before)) with
    | some p => simp [hfind]
    | none =>
      simp only [hfind]
      rw [List.find?_append, hfind]
      simp
  · intro fetch rel requests hne
    have hempty : requests.isEmpty = false := by
      cases requests with
      | nil => exact absurd rfl hne
      | cons a l => rfl
    refine ⟨?_, nodup_collect_keys requests [], ?_, ?_⟩
    · simp [batch_window, hempty]
    · intro k
      rw [mem_collect_keys k requests []]
      simp
    · simp [batch_window, hempty]

/-- Witness for C4 at a concrete input: a window of three requests over two
distinct keys issues one fetch over the deduplicated keys and resolves all
three requests from it. -/
theorem claim_c4_coalescing_witness :
    ([[1], [1], [2]] : List Key) ≠ [] ∧
    ((batch_window (fun _ => [mkRow 1 0]) relMany [[1], [1], [2]]).1 =
      [collect_keys [] [[1], [1], [2]]] ∧
    (collect_keys [] ([[1], [1], [2]] : List Key)).Nodup ∧
    (∀ k, k ∈ collect_keys [] [[1], [1], [2]] ↔ k ∈ ([[1], [1], [2]] : List Key)) ∧
    (batch_window (fun _ => [mkRow 1 0]) relMany [[1], [1], [2]]).2 =
      resolve_grouped relMany [[1], [1], [2]]
        ((fun _ => [mkRow 1 0]) (collect_keys [] [[1], [1], [2]]))) :=
  ⟨by decide,
    claim_c4_coalescing.2 (fun _ => [mkRow 1 0]) relMany [[1], [1], [2]]
      (by decide)⟩

/-! ## C9: secondary-table grouping -/

/-- Modelled from the spec: §4.5 SecondaryTableResolver — for a relationship
crossing a junction ("secondary") table the backend fetch returns
`(parentKeyValue, targetRow)` pairs rather than bare target rows.  The loader
in src/ has no secondary-table path (its unit test `test_loader_for_secondary`
is marked xfail), so the fetched-row shape is modelled from the spec. -/
inductive FetchedRow
  | plain (row : Row)
  | pair (parentKey : Key) (target : Row)
deriving DecidableEq

/-- Modelled from the spec: the descriptor seen by KeyGrouper — the fields
`loader.py` reads plus the optional secondary-table marker
(`descriptor.secondary != nil`). -/
structure SpecDescriptor where
  base : RelationshipProperty
  secondary : Bool
deriving DecidableEq

/-- Modelled from the spec: §4.3/§4.5 KeyGrouper key extraction — when the
descriptor has a secondary table, the grouping key of a fetched row is the
parent-key first element of the pair, not columns of the target row;
otherwise it is read from the remote columns of the row. -/
def spec_group_key (d : SpecDescriptor) : FetchedRow → Key
  | FetchedRow.pair pk target =>
    if d.secondary then pk else group_by_remote_key d.base target
  | FetchedRow.plain row => group_by_remote_key d.base row

/-- Modelled from the spec: §4.3 `group(rows, descriptor) -> map[Key][]Row`,
as the function from each key to its fetched rows in fetched order. -/
def spec_group (d : SpecDescriptor) (rows : List FetchedRow) :
    Key → List FetchedRow :=
  fun k => rows.filter (fun r => decide (spec_group_key d r = k))

/-- C9: for a secondary-table relationship the grouping key of each fetched
`(parentKeyValue, targetRow)` pair is its parent-key element, not columns on
the target row; grouping such pairs never assigns a row to a parent key it
does not carry, the distinct parent keys are exactly the group keys, and the
group sizes over those keys sum to the number of fetched pairs (so 5 pairs
across 2 parent keys give exactly 2 entries summing to 5 — the witness). -/
theorem claim_c9_secondary_grouping (d : SpecDescriptor)
    (hd : d.secondary = true) (prs : List (Key × Row)) :
    (∀ (pk : Key) (t : Row), spec_group_key d (FetchedRow.pair pk t) = pk) ∧
    (∀ (k : Key) (r : FetchedRow),
      r ∈ spec_group d (prs.map (fun p => FetchedRow.pair p.1 p.2)) k →
      spec_group_key d r = k) ∧
    (collect_keys [] (prs.map Prod.fst)).Nodup ∧
    (∀ k : Key, k ∈ collect_keys [] (prs.map Prod.fst) ↔ k ∈ prs.map Prod.fst) ∧
    ((collect_keys [] (prs.map Prod.fst)).map
        (fun k => (spec_group d (prs.map (fun p => FetchedRow.pair p.1 p.2)) k).length)).sum
      = prs.length := by
  refine ⟨?_, ?_, nodup_collect_keys _ [], ?_, ?_⟩
  · intro pk t
    simp [spec_group_key, hd]
  · intro k r hr
    have := (List.mem_filter.mp hr).2
    simpa using this
  · intro k
    rw [mem_collect_keys k (prs.map Prod.fst) []]
    simp
  · have hcov : ∀ r ∈ prs.map (fun p => FetchedRow.pair p.1 p.2),
        spec_group_key d r ∈ collect_keys [] (prs.map Prod.fst) := by
      intro r hr
      obtain ⟨p, hp, rfl⟩ := List.mem_map.mp hr
      rw [mem_collect_keys _ (prs.map Prod.fst) []]
      refine ⟨?_, by simp⟩
      simp only [spec_group_key, hd, if_pos]
      exact List.mem_map.mpr ⟨p, hp, rfl⟩
    have h := sum_filter_length (spec_group_key d)
      (collect_keys [] (prs.map Prod.fst))
      (prs.map (fun p => FetchedRow.pair p.1 p.2))
      (nodup_collect_keys _ []) hcov
    unfold spec_group
    rw [h, List.length_map]

/-- Witness for C9 at a concrete input: five pairs across the two parent keys
`[1]` and `[2]` produce exactly two group entries whose sizes sum to the five
fetched pairs. -/
theorem claim_c9_secondary_grouping_witness :
    (SpecDescriptor.mk relMany true).secondary = true ∧
    (collect_keys []
      (([([1], mkRow 1 0), ([1], mkRow 1 1), ([1], mkRow 1 2),
        ([2], mkRow 2 0), ([2], mkRow 2 1)] : List (Key × Row)).map Prod.fst)).length = 2 ∧
    ([([1], mkRow 1 0), ([1], mkRow 1 1), ([1], mkRow 1 2),
      ([2], mkRow 2 0), ([2], mkRow 2 1)] : List (Key × Row)).length = 5 ∧
    ((collect_keys []
        (([([1], mkRow 1 0), ([1], mkRow 1 1), ([1], mkRow 1 2),
          ([2], mkRow 2 0), ([2], mkRow 2 1)] : List (Key × Row)).map Prod.fst)).map
        (fun k => (spec_group (SpecDescriptor.mk relMany true)
          (([([1], mkRow 1 0), ([1], mkRow 1 1), ([1], mkRow 1 2),
            ([2], mkRow 2 0), ([2], mkRow 2 1)] : List (Key × Row)).map
            (fun p => FetchedRow.pair p.1 p.2)) k).length)).sum
      = ([([1], mkRow 1 0), ([1], mkRow 1 1), ([1], mkRow 1 2),
        ([2], mkRow 2 0), ([2], mkRow 2 1)] : List (Key × Row)).length :=
  ⟨rfl, by decide, by decide,
    (claim_c9_secondary_grouping (SpecDescriptor.mk relMany true) rfl
      [([1], mkRow 1 0), ([1], mkRow 1 1), ([1], mkRow 1 2),
        ([2], mkRow 2 0), ([2], mkRow 2 1)]).2.2.2.2⟩

end StrawberrySqlalchemy
